import Mathlib

/-!
Verification of `bcbio/pipeline/variation.py` (batch-result consolidation for a
multi-sample variant-calling pipeline).

The Python module is shallowly embedded: Python dicts become association lists
of `Val` values, Python strings become `String`, fallible operations return
`Except PyErr`, and filesystem side effects (directory creation, linking, file
writes) are logged explicitly as data.  External collaborators (the transform
functions from other bcbio modules, `os.path.samefile`, the `dd.*` accessors)
are parameters or are modelled from the spec where noted.
-/

set_option autoImplicit false

namespace Variation

mutual
/-- A Python value as it occurs in the processing records handled by this
module: a string (file path, name), a nested dict, or `None`. -/
inductive Val where
  | vstr (s : String)
  | vdict (fields : Fields)
  | vnull
deriving Repr, DecidableEq

/-- The field list of a Python dict with string keys (insertion-ordered). -/
inductive Fields where
  | fnil
  | fcons (k : String) (v : Val) (rest : Fields)
deriving Repr, DecidableEq
end

/-- A processing record: a Python dict with string keys. -/
abbrev Rec := Fields

/-- `d[k]` / `d.get(k)`: first binding for `k`, if any. -/
def lookupField (d : Rec) (k : String) : Option Val :=
  match d with
  | .fnil => none
  | .fcons k' v rest => if k' = k then some v else lookupField rest k

/-- `d[k] = v`: replace the first binding for `k`, or append a new one. -/
def setField (d : Rec) (k : String) (v : Val) : Rec :=
  match d with
  | .fnil => .fcons k v .fnil
  | .fcons k' v' rest =>
      if k' = k then .fcons k v rest else .fcons k' v' (setField rest k v)

/-- `tz.get_in(keys, d)` (default `None`): walk nested dicts along `keys`,
returning `none` on any missing key or non-dict intermediate. -/
def getIn : List String → Rec → Option Val
  | [], d => some (.vdict d)
  | [k], d => lookupField d k
  | k :: rest, d =>
      match lookupField d k with
      | some (.vdict sub) => getIn rest sub
      | _ => none

/-- `tz.update_in(d, keys, fun _ => v)`: set the value at the nested path
`keys`, creating intermediate dicts when missing.  (toolz would raise on a
non-dict intermediate; the paths used by this module only cross dicts, and we
treat such an intermediate like a missing key.) -/
def updateIn (d : Rec) (keys : List String) (v : Val) : Rec :=
  match keys with
  | [] => d
  | [k] => setField d k v
  | k :: rest =>
      let sub : Rec :=
        match lookupField d k with
        | some (.vdict sub) => sub
        | _ => .fnil
      setField d k (.vdict (updateIn sub rest v))

/-- Python truthiness of an optional value: `None`/absent, `""` and `{}` are
falsy; any other string or non-empty dict is truthy. -/
def pyTruthy : Option Val → Bool
  | none => false
  | some .vnull => false
  | some (.vstr s) => s != ""
  | some (.vdict .fnil) => false
  | some (.vdict (.fcons _ _ _)) => true

/-- Python truthiness of an optional string (`None` and `""` are falsy). -/
def strTruthy : Option String → Bool
  | none => false
  | some s => s != ""

/-- The Python exceptions this module can raise. -/
inductive PyErr where
  /-- `ValueError("Incorrect values for %s: %s" % (key, list(vals)))` with the
  field name and the distinct offending values. -/
  | valueError (field : String) (vals : List Val)
  | typeError
  | keyError
  | indexError
deriving Repr, DecidableEq

/-! ### Path helpers (`os.path` on POSIX) -/
/-- `s.startswith(pre)`. -/
def pyStartswith (s pre : String) : Bool := pre.data.isPrefixOf s.data

/-- `s.endswith(suf)`. -/
def pyEndswith (s suf : String) : Bool := suf.data.isSuffixOf s.data

/-- `os.path.join(a, b)` (POSIX): an absolute `b` discards `a`; otherwise the
parts are joined with exactly one `/` between them. -/
def pathJoin (a b : String) : String :=
  if pyStartswith b "/" then b
  else if a = "" then b
  else if pyEndswith a "/" then a ++ b
  else a ++ "/" ++ b

/-- `os.path.basename(p)`: the part after the last `/`. -/
def basename (p : String) : String :=
  String.mk ((p.data.reverse.takeWhile (· != '/')).reverse)

/-- `os.path.dirname(p)`: the part before the last `/`, with trailing slashes
stripped unless the result consists only of slashes. -/
def dirname (p : String) : String :=
  let pre := (p.data.reverse.dropWhile (· != '/')).reverse
  if pre.all (· == '/') then String.mk pre
  else String.mk ((pre.reverse.dropWhile (· == '/')).reverse)

/-! ### `_get_batch_representative` -/
/-- The argument shape of `postprocess_variants` / `_get_batch_representative`:
either a single record (a Python dict) or a group (a list of records). -/
inductive Items where
  | single (d : Rec)
  | group (ds : List Rec)
deriving Repr, DecidableEq

/-- One iteration of the collection loop in `_get_batch_representative`:
a record defining `key` contributes its value to the distinct-value set `vals`
(a Python `set`, modelled as a deduplicated list) and itself to `out`. -/
def gbrStep (key : String) (acc : List Val × List Rec) (data : Rec) :
    List Val × List Rec :=
  match lookupField data key with
  | some v => ((if v ∈ acc.1 then acc.1 else acc.1 ++ [v]), acc.2 ++ [data])
  | none => acc

/-- The distinct values of `key` over the members of `ds` that define it
(the `vals` set of `_get_batch_representative`). -/
def distinctVals (ds : List Rec) (key : String) : List Val :=
  (ds.foldl (gbrStep key) ([], [])).1

/-- The members of `ds` that define `key`, in order
(the `out` list of `_get_batch_representative`). -/
def definedMembers (ds : List Rec) (key : String) : List Rec :=
  (ds.foldl (gbrStep key) ([], [])).2

/-- `_get_batch_representative(items, key)`: a single record is its own
representative; for a group, the distinct values of `key` over members defining
it must number exactly one, otherwise `ValueError`; on success `out[0]` (the
first member defining `key`) is returned together with the full original
`items`. -/
def getBatchRepresentative (items : Items) (key : String) :
    Except PyErr (Rec × Items) :=
  match items with
  | .single d => .ok (d, .single d)
  | .group ds =>
      if (distinctVals ds key).length ≠ 1 then
        .error (.valueError key (distinctVals ds key))
      else
        match definedMembers ds key with
        | [] => .error .indexError
        | o :: _ => .ok (o, .group ds)

/-! ### `_symlink_to_workdir` -/
/-- A logged filesystem side effect of the Workspace Stager. -/
inductive FsAction where
  /-- `utils.safe_makedir(path)` (idempotent create-if-absent). -/
  | makedir (path : String)
  /-- `utils.symlink_plus(src, dst)`. -/
  | symlink (src dst : String)
deriving Repr, DecidableEq

/-- Modelled from the spec: `dd.get_work_dir` (an accessor defined outside this
module) retrieves the record's designated work-directory path, stored under the
nested `dirs.work` fields; `none` when absent or not a string. -/
def getWorkDir (data : Rec) : Option String :=
  match getIn ["dirs", "work"] data with
  | some (.vstr s) => some s
  | _ => none

/-- The staging directory name: `variantcaller` when truthy, else
`"precalled"`. -/
def vcName : Option String → String
  | none => "precalled"
  | some v => if v = "" then "precalled" else v

/-- The staging target `os.path.join(work_dir, variantcaller, basename(orig))`. -/
def stageTarget (vc wd orig : String) : String :=
  pathJoin (pathJoin wd vc) (basename orig)

/-- `_symlink_to_workdir(data, key)`, with the external
`genotype.get_variantcaller` collaborator abstracted as `getVC`.  A truthy
string reference at `key` that does not start with the work directory is
re-pointed to `<work_dir>/<variant_caller or "precalled">/<basename>`, after a
directory creation and a link; otherwise the record comes back unchanged.  A
falsy value (absent, `None`, `""`, `{}`) short-circuits; calling `.startswith`
on a missing work dir or a non-string reference raises. -/
def symlinkToWorkdir (getVC : Rec → Option String) (data : Rec) (key : List String) :
    Except PyErr (Rec × List FsAction) :=
  match getIn key data with
  | none => .ok (data, [])
  | some .vnull => .ok (data, [])
  | some (.vdict .fnil) => .ok (data, [])
  | some (.vdict (.fcons _ _ _)) => .error .typeError
  | some (.vstr orig) =>
      if orig = "" then .ok (data, [])
      else
        match getWorkDir data with
        | none => .error .typeError
        | some wd =>
            if pyStartswith orig wd then .ok (data, [])
            else
              .ok (updateIn data key (.vstr (stageTarget (vcName (getVC data)) wd orig)),
                   [.makedir (dirname (stageTarget (vcName (getVC data)) wd orig)),
                    .symlink orig (stageTarget (vcName (getVC data)) wd orig)])

/-- Concrete record for the staging examples: a read-only call file outside the
`/w` work directory. -/
def stageRecEx : Rec :=
  .fcons "vrn_file" (.vstr "/ro/x.vcf")
    (.fcons "dirs" (.vdict (.fcons "work" (.vstr "/w") .fnil)) .fnil)

/-! ### `summarize_vc` and `_combine_validations` -/
/-- The validation summary attached to a record (`data["validate"]`): a grading
CSV path and plot paths.  An absent, `None` or empty (falsy) summary dict is
modelled as `none` at the use site. -/
structure GradingInfo where
  grading_summary : Option String
  grading_plots : List String
deriving Repr, DecidableEq

/-- The fields of a record read by `summarize_vc` / `_combine_validations`,
with the external `dd.*` accessors (`dd.get_batches`, `dd.get_sample_name`,
`dd.get_variantcaller`, `dd.get_work_dir`) modelled as structure fields.
`vrn_file_joint = none` models both an absent key and an explicit `None`
(the code tests `is not None`). -/
structure VCItem where
  vrn_file : Option String
  vrn_file_joint : Option String
  batches : List String
  sample_name : String
  variantcaller : String
  work_dir : String
  validate : Option GradingInfo
deriving Repr, DecidableEq

/-- Python `set.add`, modelled as insertion-ordered deduplication. -/
def addDistinct (l : List String) (s : String) : List String :=
  if s ∈ l then l else l ++ [s]

/-- The `csvs` set of `_combine_validations`: distinct truthy
`grading_summary` paths over items with a truthy `validate`. -/
def distinctCsvs (items : List VCItem) : List String :=
  items.foldl (fun acc i =>
    match i.validate with
    | some g =>
        match g.grading_summary with
        | some s => if s ≠ "" then addDistinct acc s else acc
        | none => acc
    | none => acc) []

/-- The `pngs` set of `_combine_validations`: the union of truthy
`grading_plots` lists over items with a truthy `validate`. -/
def distinctPngs (items : List VCItem) : List String :=
  items.foldl (fun acc i =>
    match i.validate with
    | some g => if g.grading_plots ≠ [] then g.grading_plots.foldl addDistinct acc
                else acc
    | none => acc) []

/-- Lexicographic comparison of character lists by code point (Python string
ordering). -/
def listLexLe : List Char → List Char → Bool
  | [], _ => true
  | _ :: _, [] => false
  | a :: as, b :: bs =>
      if a.val < b.val then true
      else if b.val < a.val then false
      else listLexLe as bs

/-- Python `<=` on strings. -/
def strLe (a b : String) : Bool := listLexLe a.data b.data

/-- Ordered insertion into an ascending list. -/
def insortStr (s : String) : List String → List String
  | [] => [s]
  | x :: xs => if strLe s x then s :: x :: xs else x :: insortStr s xs

/-- Python `sorted(list(xs))` on strings (ascending insertion sort). -/
def sortStrs (xs : List String) : List String := xs.foldr insortStr []

/-- The merge loop of `_combine_validations`: each CSV's first line is read as
the header (written only for the first CSV, `i == 0`), then the remaining
lines are appended. -/
def mergeCsvLines (fs : String → List String) : List String → List String
  | [] => []
  | c0 :: rest =>
      (fs c0).take 1 ++ (fs c0).drop 1 ++ rest.flatMap (fun c => (fs c).drop 1)

/-- `os.path.join(utils.safe_makedir(os.path.join(work_dir, "validation")),
"grading-summary-combined.csv")`. -/
def combinedPath (i0 : VCItem) : String :=
  pathJoin (pathJoin i0.work_dir "validation") "grading-summary-combined.csv"

/-- The value of `_combine_validations`: sorted deduplicated plots and the
grading summary path. -/
structure CombinedSummary where
  grading_plots : List String
  grading_summary : String
deriving Repr, DecidableEq

/-- `_combine_validations(items)`: a single distinct report path is returned
unchanged; otherwise (also for zero reports) the sorted distinct reports are
merged into `<work_dir of items[0]>/validation/grading-summary-combined.csv`,
whose written lines are logged as the second component. -/
def combineValidations (fs : String → List String) (items : List VCItem) :
    Except PyErr (CombinedSummary × List (String × List String)) :=
  match distinctCsvs items with
  | [c] => .ok ({ grading_plots := sortStrs (distinctPngs items),
                  grading_summary := c }, [])
  | csvs =>
      match items with
      | [] => .error .indexError
      | i0 :: _ =>
          .ok ({ grading_plots := sortStrs (distinctPngs items),
                 grading_summary := combinedPath i0 },
               [(combinedPath i0, mergeCsvLines fs (sortStrs csvs))])

/-- The output kind of a `summarize_vc` emission: `out["variants"][out_key]`. -/
inductive OutKey where
  | calls
  | gvcf
deriving Repr, DecidableEq

def outKeyStr : OutKey → String
  | .calls => "calls"
  | .gvcf => "gvcf"

/-- The loop state of `summarize_vc`: the `added` name set, the two manifest
lists, and the log of performed file copies (`utils.copy_plus` +
`vcfutils.bgzip_and_index`) as (dedup key, target path) pairs. -/
structure VCState where
  added : List String
  calls : List String
  gvcf : List String
  writes : List (String × String)
deriving Repr, DecidableEq

/-- One `(vrn_key, out_key, name)` emission: skip when `name-caller` is in
`added`; otherwise add it, copy to
`<work_dir>/variants/<out_key>/<name>-<caller>.vcf.gz` and append to the
manifest list of that output kind. -/
def svcAddOne (data : VCItem) (st : VCState) (entry : String × OutKey × String) :
    VCState :=
  let cur_name := entry.2.2 ++ "-" ++ data.variantcaller
  if cur_name ∈ st.added then st
  else
    let out_file := pathJoin (pathJoin (pathJoin data.work_dir "variants")
                      (outKeyStr entry.2.1)) (cur_name ++ ".vcf.gz")
    { added := st.added ++ [cur_name],
      calls := match entry.2.1 with
               | .calls => st.calls ++ [out_file]
               | .gvcf => st.calls,
      gvcf := match entry.2.1 with
              | .gvcf => st.gvcf ++ [out_file]
              | .calls => st.gvcf,
      writes := st.writes ++ [(cur_name, out_file)] }

/-- One item of the `summarize_vc` loop: items with a truthy `vrn_file` emit a
per-sample gvcf plus a batch-level joint call when `vrn_file_joint` is not
`None`, else a single batch-level call. -/
def svcStep (st : VCState) (data : VCItem) : VCState :=
  match data.vrn_file with
  | none => st
  | some s =>
      if s = "" then st
      else
        let batch_name := match data.batches with
          | [] => data.sample_name
          | b :: _ => b
        let to_add : List (String × OutKey × String) :=
          if data.vrn_file_joint ≠ none then
            [("vrn_file", .gvcf, data.sample_name),
             ("vrn_file_joint", .calls, batch_name)]
          else [("vrn_file", .calls, batch_name)]
        to_add.foldl (svcAddOne data) st

/-- The output of `summarize_vc`: the combined validation summary (with its
file writes) and the variants manifest (with its file copies). -/
structure VCOut where
  validate : CombinedSummary
  valWrites : List (String × List String)
  calls : List String
  gvcf : List String
  copyWrites : List (String × String)
deriving Repr, DecidableEq

/-- `summarize_vc(items)` with the external `validate.summarize_grading` +
`utils.to_single_data` preprocessing abstracted as `grading` and file contents
as `fs`. -/
def summarizeVC (grading : List VCItem → List VCItem) (fs : String → List String)
    (items0 : List VCItem) : Except PyErr VCOut :=
  match combineValidations fs (grading items0) with
  | .error e => .error e
  | .ok (summary, vw) =>
      let st := (grading items0).foldl svcStep ⟨[], [], [], []⟩
      .ok { validate := summary, valWrites := vw, calls := st.calls,
            gvcf := st.gvcf, copyWrites := st.writes }

/-- The deduplication invariant of the `summarize_vc` loop state: no two file
copies share a dedup key, every emitted key is in `added`, and every copy has
exactly one manifest entry. -/
def VCInv (st : VCState) : Prop :=
  (st.writes.map Prod.fst).Nodup ∧
  (∀ k ∈ st.writes.map Prod.fst, k ∈ st.added) ∧
  st.calls.length + st.gvcf.length = st.writes.length

def fsEmpty : String → List String := fun _ => []

def itemW : VCItem :=
  ⟨some "/x.vcf", none, [], "s", "gatk", "/w", some ⟨some "/val.csv", []⟩⟩

def fsEx : String → List String := fun p =>
  if p = "/a.csv" then ["h\n", "a\n"]
  else if p = "/b.csv" then ["h\n", "b\n"]
  else []

def itemVa : VCItem := ⟨none, none, [], "s1", "gatk", "/w", some ⟨some "/a.csv", []⟩⟩

def itemVb : VCItem := ⟨none, none, [], "s2", "gatk", "/w", some ⟨some "/b.csv", []⟩⟩

def itemC10a : VCItem := ⟨some "/f1.vcf", none, ["a-b"], "s1", "c", "/w", none⟩

def itemC10b : VCItem := ⟨some "/f2.vcf", none, ["a"], "s2", "b-c", "/w", none⟩

/-! ### `postprocess_variants` and `_get_orig_items` -/
/-- `tz.get_in(keys, d, default)`. -/
def getInDefault (keys : List String) (d : Rec) (dflt : Val) : Val :=
  match getIn keys d with
  | some v => v
  | none => dflt

/-- The external collaborators of `postprocess_variants`, abstracted as opaque
transforms with the input/output contracts stated in the spec. -/
structure PPEnv where
  /-- `utils.to_single_data` (unwraps CWL nesting). -/
  toSingleData : Rec → Rec
  /-- `cwlutils.unpack_tarballs` on the item list. -/
  unpackTarballsItems : Items → Rec → Items
  /-- `cwlutils.unpack_tarballs` on the representative. -/
  unpackTarballsData : Rec → Rec → Rec
  /-- `genotype.get_variantcaller`. -/
  getVariantcaller : Rec → Option String
  /-- `effects.add_to_vcf`, returning `(ann_vrn_file, vrn_stats)`. -/
  addToVcf : String → Rec → Option String × Option Val
  /-- `annotation.finalize_vcf(vrn_file, variantcaller, orig_items)`. -/
  finalizeVcf : String → Option String → List Rec → String
  /-- `genotype.variant_filtration(vrn_file, ref_file, variation, data,
  orig_items)`. -/
  variantFiltration : String → Option String → Val → Rec → List Rec → String
  /-- `prioritize.handle_vcf_calls(vrn_file, data, orig_items)`. -/
  handleVcfCalls : String → Rec → List Rec → String
  /-- `germline.extract(data, orig_items)`. -/
  germlineExtract : Rec → List Rec → Rec
  /-- `dd.get_align_bam`. -/
  getAlignBam : Rec → Option String
  /-- `dd.get_ref_file`. -/
  getRefFile : Rec → Option String
  /-- `damage.run_filter(vrn_file, align_bam, ref_file, data, orig_items)`. -/
  damageRunFilter : String → String → Option String → Rec → List Rec → Rec
  /-- `vmulti.get_orig_items`. -/
  getOrigItemsMulti : Rec → List Rec
  /-- `os.path.samefile` (same underlying file). -/
  samefile : String → String → Bool

/-- `_get_orig_items(data)`: a dict with a truthy alignment file and a truthy
`metadata.batch` fans out via `vmulti.get_orig_items`; any other dict is its
own singleton; a list is returned as is. -/
def getOrigItems (env : PPEnv) : Items → List Rec
  | .single d =>
      if strTruthy (env.getAlignBam d) && pyTruthy (getIn ["metadata", "batch"] d) then
        env.getOrigItemsMulti d
      else [d]
  | .group ds => ds

/-- The prioritization / germline-extraction / damage-filtering tail of
`postprocess_variants`: prioritization may replace the call file; germline
extraction runs exactly when the returned path differs; damage filtering runs
when an alignment file is present. -/
def ppPrioStep (env : PPEnv) (vrnKey : String) (origItems : List Rec)
    (data4 : Rec) (s4 : String) :
    Except PyErr (Rec × Option (String × String) × Bool) :=
  let prio := env.handleVcfCalls s4 data4 origItems
  let data5 := if prio ≠ s4
    then env.germlineExtract (setField data4 vrnKey (.vstr prio)) origItems
    else data4
  let germ := prio != s4
  match env.getAlignBam data5 with
  | some bam =>
      if bam = "" then .ok (data5, some (s4, prio), germ)
      else
        match lookupField data5 vrnKey with
        | some (.vstr s5) =>
            .ok (env.damageRunFilter s5 bam (env.getRefFile data5) data5 origItems,
                 some (s4, prio), germ)
        | some _ => .error .typeError
        | none => .error .keyError
  | none => .ok (data5, some (s4, prio), germ)

/-- The guarded transform sequence of `postprocess_variants` on a record with a
truthy call file: effect annotation (plus optional stats), annotation
finalize, filtration, then `ppPrioStep`.  A falsy call file skips the whole
branch; a non-string call value is a type error at the collaborator. -/
def ppStage2 (env : PPEnv) (vrnKey : String) (data : Rec) (items : Items) :
    Except PyErr (Rec × Option (String × String) × Bool) :=
  match lookupField data vrnKey with
  | none => .ok (data, none, false)
  | some .vnull => .ok (data, none, false)
  | some (.vdict .fnil) => .ok (data, none, false)
  | some (.vdict (.fcons _ _ _)) => .error .typeError
  | some (.vstr s0) =>
      if s0 = "" then .ok (data, none, false)
      else
        let p := env.addToVcf s0 data
        let data1 := match p.1 with
          | some a => if a = "" then data else setField data vrnKey (.vstr a)
          | none => data
        let data2 := match p.2 with
          | some st => if pyTruthy (some st) then setField data1 "vrn_stats" st
                       else data1
          | none => data1
        let origItems := getOrigItems env items
        match lookupField data2 vrnKey with
        | some (.vstr s2) =>
            let data3 := setField data2 vrnKey
              (.vstr (env.finalizeVcf s2 (env.getVariantcaller data2) origItems))
            match lookupField data3 vrnKey with
            | some (.vstr s3) =>
                let data4 := setField data3 vrnKey
                  (.vstr (env.variantFiltration s3 (env.getRefFile data3)
                    (getInDefault ["genome_resources", "variation"] data3 (.vdict .fnil))
                    data3 origItems))
                match lookupField data4 vrnKey with
                | some (.vstr s4) => ppPrioStep env vrnKey origItems data4 s4
                | some _ => .error .typeError
                | none => .error .keyError
            | some _ => .error .typeError
            | none => .error .keyError
        | some _ => .error .typeError
        | none => .error .keyError

/-- The restore-if-unchanged tail of `postprocess_variants`: with a truthy
original call file that `os.path.samefile`-matches the final one, the original
reference is put back. -/
def restoreStep (env : PPEnv) (vrnKey : String) (origVrn : Option Val)
    (data : Rec) : Except PyErr Rec :=
  if pyTruthy origVrn then
    match lookupField data vrnKey with
    | none => .error .keyError
    | some cv =>
        match cv, origVrn with
        | .vstr cur, some (.vstr p) =>
            if env.samefile cur p then .ok (setField data vrnKey (.vstr p))
            else .ok data
        | _, _ => .error .typeError
  else .ok data

/-- The entry normalization of `postprocess_variants`: a list input is mapped
through `to_single_data`, and `vrn_file_joint` in its first element selects the
joint key. -/
def ppInit (env : PPEnv) (items0 : Items) : Except PyErr (String × Items) :=
  match items0 with
  | .single d => .ok ("vrn_file", .single d)
  | .group xs =>
      match xs.map env.toSingleData with
      | [] => .error .indexError
      | x0 :: rest =>
          .ok ((if (lookupField x0 "vrn_file_joint").isSome then "vrn_file_joint"
                else "vrn_file"), .group (x0 :: rest))

/-- The observable outcome of `postprocess_variants`: the returned record plus
the run facts the spec talks about (selected key, original call file, call file
before the restore step, prioritization input/output, germline invocation). -/
structure PPResult where
  data : Rec
  vrnKey : String
  origVrn : Option Val
  preRestore : Option Val
  prio : Option (String × String)
  germlineInvoked : Bool
deriving Repr, DecidableEq

/-- `postprocess_variants(items)`: entry normalization, representative
selection, tarball unpacking, staging of the call file and of
`config.algorithm.variant_regions`, the guarded transform sequence, and the
restore-if-unchanged rule. -/
def postprocessVariants (env : PPEnv) (items0 : Items) : Except PyErr PPResult :=
  match ppInit env items0 with
  | .error e => .error e
  | .ok (vrnKey, items1) =>
      match getBatchRepresentative items1 vrnKey with
      | .error e => .error e
      | .ok (data0, items2) =>
          match symlinkToWorkdir env.getVariantcaller
              (env.unpackTarballsData data0 data0) [vrnKey] with
          | .error e => .error e
          | .ok (dataA, _) =>
              match symlinkToWorkdir env.getVariantcaller dataA
                  ["config", "algorithm", "variant_regions"] with
              | .error e => .error e
              | .ok (dataB, _) =>
                  match ppStage2 env vrnKey dataB
                      (env.unpackTarballsItems items2 data0) with
                  | .error e => .error e
                  | .ok (dataC, pr, germ) =>
                      match restoreStep env vrnKey
                          (lookupField (env.unpackTarballsData data0 data0) vrnKey)
                          dataC with
                      | .error e => .error e
                      | .ok final =>
                          .ok { data := final, vrnKey := vrnKey,
                                origVrn := lookupField
                                  (env.unpackTarballsData data0 data0) vrnKey,
                                preRestore := lookupField dataC vrnKey,
                                prio := pr, germlineInvoked := germ }

/-- Records and collaborators for the `postprocess_variants` examples: a call
file already under the `/w` work directory, identity-like transforms, and
path-equality as `samefile`. -/
def ppRecEx : Rec :=
  .fcons "vrn_file" (.vstr "/w/x.vcf")
    (.fcons "dirs" (.vdict (.fcons "work" (.vstr "/w") .fnil)) .fnil)

def envEx : PPEnv where
  toSingleData := id
  unpackTarballsItems := fun its _ => its
  unpackTarballsData := fun d _ => d
  getVariantcaller := fun _ => some "gatk"
  addToVcf := fun _ _ => (none, none)
  finalizeVcf := fun s _ _ => s
  variantFiltration := fun s _ _ _ _ => s
  handleVcfCalls := fun s _ _ => s
  germlineExtract := fun d _ => d
  getAlignBam := fun _ => none
  getRefFile := fun _ => none
  damageRunFilter := fun _ _ _ d _ => d
  getOrigItemsMulti := fun d => [d]
  samefile := fun a b => a == b

/-- `envEx` with a prioritization stage that returns a new file. -/
def envEx2 : PPEnv := { envEx with handleVcfCalls := fun s _ _ => s ++ ".prio" }

/-! ## Theorems -/

/-! #### Fold lemmas for `_get_batch_representative` -/
/-- Once the single shared value `v` has been seen, members agreeing on `v` or
lacking the field never change `vals`; `out` collects the defining members. -/
theorem gbr_fold_from_seen (key : String) (v : Val) :
    ∀ (ds : List Rec) (out0 : List Rec),
      (∀ d ∈ ds, lookupField d key = some v ∨ lookupField d key = none) →
      ds.foldl (gbrStep key) ([v], out0) =
        ([v], out0 ++ ds.filter (fun d => (lookupField d key).isSome))
  | [], out0, _ => by simp
  | d :: rest, out0, hall => by
      have ih := gbr_fold_from_seen key v rest (out0 ++ [d])
        (fun x hx => hall x (List.mem_cons_of_mem d hx))
      have ih' := gbr_fold_from_seen key v rest out0
        (fun x hx => hall x (List.mem_cons_of_mem d hx))
      rcases hall d (List.mem_cons_self d rest) with hd | hd
      · have hstep : gbrStep key ([v], out0) d = ([v], out0 ++ [d]) := by
          simp [gbrStep, hd]
        rw [List.foldl_cons, hstep, ih]
        simp [List.filter_cons, hd]
      · have hstep : gbrStep key ([v], out0) d = ([v], out0) := by
          simp [gbrStep, hd]
        rw [List.foldl_cons, hstep, ih']
        simp [List.filter_cons, hd]

/-- Characterization of the collection fold when every member either agrees on
`v` or lacks the field: `vals` ends as `[v]` (or empty when nobody defines the
field) and `out` ends as the defining members. -/
theorem gbr_fold_mixed (key : String) (v : Val) :
    ∀ (ds : List Rec),
      (∀ d ∈ ds, lookupField d key = some v ∨ lookupField d key = none) →
      ds.foldl (gbrStep key) ([], []) =
        ((if ds.filter (fun d => (lookupField d key).isSome) = [] then ([] : List Val)
          else [v]),
         ds.filter (fun d => (lookupField d key).isSome))
  | [], _ => by simp
  | d :: rest, hall => by
      rcases hall d (List.mem_cons_self d rest) with hd | hd
      · have h1 := gbr_fold_from_seen key v rest [d]
          (fun x hx => hall x (List.mem_cons_of_mem d hx))
        have hstep : gbrStep key ([], []) d = ([v], [d]) := by
          simp [gbrStep, hd]
        rw [List.foldl_cons, hstep, h1]
        simp [List.filter_cons, hd]
      · have ih := gbr_fold_mixed key v rest
          (fun x hx => hall x (List.mem_cons_of_mem d hx))
        have hstep : gbrStep key ([], []) d = ([], []) := by
          simp [gbrStep, hd]
        rw [List.foldl_cons, hstep, ih]
        simp [List.filter_cons, hd]

/-- `vals` never outgrows `out`: a value is only recorded when a defining
member is appended. -/
theorem gbr_fold_len (key : String) :
    ∀ (ds : List Rec) (acc : List Val × List Rec),
      acc.1.length ≤ acc.2.length →
      ((ds.foldl (gbrStep key) acc).1.length ≤ (ds.foldl (gbrStep key) acc).2.length)
  | [], _, h => h
  | d :: rest, acc, h => by
      rw [List.foldl_cons]
      apply gbr_fold_len key rest
      unfold gbrStep
      cases hl : lookupField d key with
      | none => simpa using h
      | some v =>
          by_cases hv : v ∈ acc.1
          · simp only [hv, if_pos]
            simp only [List.length_append, List.length_cons, List.length_nil]
            omega
          · simp only [hv, if_neg, not_false_iff]
            simp only [List.length_append, List.length_cons, List.length_nil]
            omega

/-- Specialization of the fold to a fully agreeing nonempty group. -/
theorem gbr_fold_all_agree (key : String) (v : Val) (hd : Rec) (tl : List Rec)
    (hall : ∀ d ∈ hd :: tl, lookupField d key = some v) :
    distinctVals (hd :: tl) key = [v] ∧ definedMembers (hd :: tl) key = hd :: tl := by
  have hstep : gbrStep key ([], []) hd = ([v], [hd]) := by
    simp [gbrStep, hall hd (List.mem_cons_self hd tl)]
  have h1 := gbr_fold_from_seen key v tl [hd]
    (fun x hx => Or.inl (hall x (List.mem_cons_of_mem hd hx)))
  have hfilter : tl.filter (fun d => (lookupField d key).isSome) = tl := by
    apply List.filter_eq_self.mpr
    intro x hx
    simp [hall x (List.mem_cons_of_mem hd hx)]
  constructor
  · show (List.foldl (gbrStep key) ([], []) (hd :: tl)).1 = [v]
    rw [List.foldl_cons, hstep, h1, hfilter]
  · show (List.foldl (gbrStep key) ([], []) (hd :: tl)).2 = hd :: tl
    rw [List.foldl_cons, hstep, h1, hfilter]
    simp

/-- **C1.** On a nonempty group whose members all define `key` with the same
value, `_get_batch_representative` returns the first record and the full
original list unchanged; a single (non-group) record is its own
representative. -/
theorem select_representative_consistent (key : String) (v : Val) (d0 hd : Rec)
    (tl : List Rec) (hall : ∀ d ∈ hd :: tl, lookupField d key = some v) :
    getBatchRepresentative (.group (hd :: tl)) key = .ok (hd, .group (hd :: tl)) ∧
    getBatchRepresentative (.single d0) key = .ok (d0, .single d0) := by
  refine ⟨?_, rfl⟩
  obtain ⟨hvals, hmem⟩ := gbr_fold_all_agree key v hd tl hall
  simp [getBatchRepresentative, hvals, hmem]

/-- Witness for C1 at a concrete two-member group. -/
theorem select_representative_consistent_witness :
    getBatchRepresentative (.group [Fields.fcons "vrn_file" (.vstr "x.vcf") .fnil,
        Fields.fcons "vrn_file" (.vstr "x.vcf") .fnil]) "vrn_file"
      = .ok (Fields.fcons "vrn_file" (.vstr "x.vcf") .fnil,
          .group [Fields.fcons "vrn_file" (.vstr "x.vcf") .fnil,
            Fields.fcons "vrn_file" (.vstr "x.vcf") .fnil]) ∧
    getBatchRepresentative (.single (Fields.fcons "vrn_file" (.vstr "x.vcf") .fnil))
        "vrn_file"
      = .ok (Fields.fcons "vrn_file" (.vstr "x.vcf") .fnil,
          .single (Fields.fcons "vrn_file" (.vstr "x.vcf") .fnil)) :=
  select_representative_consistent "vrn_file" (.vstr "x.vcf")
    (Fields.fcons "vrn_file" (.vstr "x.vcf") .fnil)
    (Fields.fcons "vrn_file" (.vstr "x.vcf") .fnil)
    [Fields.fcons "vrn_file" (.vstr "x.vcf") .fnil] (by decide)

/-- **C2.** A group raises exactly when the number of distinct values of `key`
over the defining members is not one, and the raised error carries the field
name and the distinct values; a single record never raises. -/
theorem select_representative_error_iff (key : String) (ds : List Rec) (d0 : Rec) :
    ((∃ e, getBatchRepresentative (.group ds) key = .error e) ↔
        (distinctVals ds key).length ≠ 1) ∧
    ((distinctVals ds key).length ≠ 1 →
        getBatchRepresentative (.group ds) key =
          .error (.valueError key (distinctVals ds key))) ∧
    (∀ e, getBatchRepresentative (.single d0) key ≠ .error e) := by
  by_cases hn : (distinctVals ds key).length = 1
  · have hle := gbr_fold_len key ds ([], []) (by simp)
    have hout : definedMembers ds key ≠ [] := by
      intro h
      have h1 : (distinctVals ds key).length ≤ (definedMembers ds key).length := hle
      rw [h, hn] at h1
      simp at h1
    obtain ⟨o, rest, ho⟩ := List.exists_cons_of_ne_nil hout
    have hok : getBatchRepresentative (.group ds) key = .ok (o, .group ds) := by
      simp [getBatchRepresentative, hn, ho]
    refine ⟨?_, ?_, ?_⟩
    · constructor
      · rintro ⟨e, he⟩
        rw [hok] at he
        exact absurd he (by simp)
      · intro h
        exact absurd hn h
    · intro h
      exact absurd hn h
    · intro e h
      exact absurd h (by simp [getBatchRepresentative])
  · have herr : getBatchRepresentative (.group ds) key =
        .error (.valueError key (distinctVals ds key)) := by
      simp [getBatchRepresentative, hn]
    refine ⟨⟨fun _ => hn, fun _ => ⟨_, herr⟩⟩, fun _ => herr, ?_⟩
    intro e h
    exact absurd h (by simp [getBatchRepresentative])

/-- **C9 (counterexample).** With one member defining the field and one lacking
it, the second component is the full original group, not the filtered
subsequence `[recW]`. -/
theorem select_representative_filtered_counterexample :
    getBatchRepresentative
        (.group [Fields.fcons "vrn_file" (.vstr "x.vcf") .fnil, Fields.fnil])
        "vrn_file"
      = .ok (Fields.fcons "vrn_file" (.vstr "x.vcf") .fnil,
          .group [Fields.fcons "vrn_file" (.vstr "x.vcf") .fnil, Fields.fnil]) ∧
    Items.group [Fields.fcons "vrn_file" (.vstr "x.vcf") .fnil, Fields.fnil]
      ≠ Items.group [Fields.fcons "vrn_file" (.vstr "x.vcf") .fnil] := by
  exact ⟨rfl, by decide⟩

/-- **C9 (amended).** On a group whose defining members agree on `key` (others
may lack it, and at least one defines it), `_get_batch_representative` returns
the first defining member and the **full original** group as second component,
including the members that lack the field. -/
theorem select_representative_full_group (key : String) (v : Val) (ds : List Rec)
    (hall : ∀ d ∈ ds, lookupField d key = some v ∨ lookupField d key = none)
    (hex : ∃ d ∈ ds, lookupField d key = some v) :
    ∃ rep, getBatchRepresentative (.group ds) key = .ok (rep, .group ds) ∧
      rep ∈ ds ∧ lookupField rep key = some v := by
  have hmix := gbr_fold_mixed key v ds hall
  have hfne : ds.filter (fun d => (lookupField d key).isSome) ≠ [] := by
    obtain ⟨d, hd, hdv⟩ := hex
    intro h
    have hmemf : d ∈ ds.filter (fun d => (lookupField d key).isSome) :=
      List.mem_filter.mpr ⟨hd, by simp [hdv]⟩
    simp [h] at hmemf
  obtain ⟨rep, rest, hrr⟩ := List.exists_cons_of_ne_nil hfne
  have hvals : distinctVals ds key = [v] := by
    show (List.foldl (gbrStep key) ([], []) ds).1 = [v]
    rw [hmix]
    simp [hfne]
  have hmem : definedMembers ds key = rep :: rest := by
    show (List.foldl (gbrStep key) ([], []) ds).2 = rep :: rest
    rw [hmix, hrr]
  have hrepf : rep ∈ ds.filter (fun d => (lookupField d key).isSome) := by
    rw [hrr]
    exact List.mem_cons_self _ _
  refine ⟨rep, ?_, List.mem_of_mem_filter hrepf, ?_⟩
  · simp [getBatchRepresentative, hvals, hmem]
  · rcases hall rep (List.mem_of_mem_filter hrepf) with h | h
    · exact h
    · have := List.of_mem_filter hrepf
      simp [h] at this

/-! #### Dict and path lemmas -/
theorem lookupField_setField : ∀ (d : Rec) (k : String) (v : Val),
    lookupField (setField d k v) k = some v
  | .fnil, k, v => by simp [setField, lookupField]
  | .fcons k' v' rest, k, v => by
      by_cases h : k' = k
      · simp [setField, lookupField, h]
      · simp [setField, lookupField, h, lookupField_setField rest k v]

theorem getIn_updateIn (v : Val) :
    ∀ (keys : List String) (d : Rec), keys ≠ [] →
      getIn keys (updateIn d keys v) = some v
  | [], _, h => absurd rfl h
  | [k], d, _ => by
      simp [updateIn, getIn, lookupField_setField]
  | k :: k2 :: rest, d, _ => by
      simp only [updateIn, getIn, lookupField_setField]
      exact getIn_updateIn v (k2 :: rest) _ (by simp)

/-- A string append starts with its left part. -/
theorem pyStartswith_append (a b : String) : pyStartswith (a ++ b) a = true := by
  simp only [pyStartswith, String.data_append, List.isPrefixOf_iff_prefix]
  exact List.prefix_append a.data b.data

/-- `startswith` is transitive. -/
theorem pyStartswith_trans {a b c : String} (h1 : pyStartswith a b = true)
    (h2 : pyStartswith b c = true) : pyStartswith a c = true := by
  simp only [pyStartswith, List.isPrefixOf_iff_prefix] at h1 h2 ⊢
  exact h2.trans h1

/-- Joining a non-absolute `b` onto `a` yields a path starting with `a`. -/
theorem pyStartswith_pathJoin (a b : String) (hb : pyStartswith b "/" = false) :
    pyStartswith (pathJoin a b) a = true := by
  unfold pathJoin
  rw [hb]
  simp only [Bool.false_eq_true, if_false]
  by_cases ha : a = ""
  · subst ha
    simp [pyStartswith, List.isPrefixOf_iff_prefix]
  · rw [if_neg ha]
    by_cases he : pyEndswith a "/" = true
    · rw [if_pos he]
      exact pyStartswith_append a b
    · rw [if_neg he]
      have : a ++ "/" ++ b = a ++ ("/" ++ b) := by
        simp [String.ext_iff, String.data_append, List.append_assoc]
      rw [this]
      exact pyStartswith_append a ("/" ++ b)

/-- A basename contains no slash, hence never starts with one. -/
theorem basename_not_abs (p : String) : pyStartswith (basename p) "/" = false := by
  cases hb : pyStartswith (basename p) "/" with
  | false => rfl
  | true =>
      exfalso
      simp only [pyStartswith, List.isPrefixOf_iff_prefix] at hb
      have hd : '/' ∈ (basename p).data := hb.subset (by simp)
      have hd' : '/' ∈ p.data.reverse.takeWhile (· != '/') := by
        have hdd : (basename p).data = (p.data.reverse.takeWhile (· != '/')).reverse := rfl
        rw [hdd] at hd
        simpa using hd
      have hc := List.mem_takeWhile_imp hd'
      simp at hc

/-- A `pathJoin` whose right part is nonempty, or whose left part is nonempty,
is nonempty. -/
theorem pathJoin_ne_empty {a b : String} (h : a ≠ "" ∨ b ≠ "") :
    pathJoin a b ≠ "" := by
  have hiff : ∀ s : String, (s = "") ↔ s.data = [] := by
    intro s
    rw [String.ext_iff]
  unfold pathJoin
  by_cases habs : pyStartswith b "/" = true
  · rw [if_pos habs]
    intro hb
    rw [hb] at habs
    exact absurd habs (by decide)
  · rw [if_neg habs]
    by_cases ha : a = ""
    · rw [if_pos ha]
      rcases h with hh | hh
      · exact absurd ha hh
      · exact hh
    · rw [if_neg ha]
      have had : a.data ≠ [] := fun hd => ha ((hiff a).mpr hd)
      by_cases he : pyEndswith a "/" = true
      · rw [if_pos he]
        intro hcon
        have hd := (hiff _).mp hcon
        rw [String.data_append] at hd
        exact had (List.append_eq_nil.mp hd).1
      · rw [if_neg he]
        intro hcon
        have hd := (hiff _).mp hcon
        rw [String.data_append, String.data_append] at hd
        exact had (List.append_eq_nil.mp (List.append_eq_nil.mp hd).1).1

theorem pyStartswith_refl (s : String) : pyStartswith s s = true := by
  simp [pyStartswith, List.isPrefixOf_iff_prefix]

/-- Writing one key leaves the others unread. -/
theorem lookupField_setField_ne : ∀ (d : Rec) (k k' : String) (v : Val),
    k ≠ k' → lookupField (setField d k v) k' = lookupField d k'
  | .fnil, k, k', v, h => by simp [setField, lookupField, h]
  | .fcons ka va rest, k, k', v, h => by
      by_cases hk : ka = k
      · subst hk
        simp [setField, lookupField, h]
      · by_cases hk2 : ka = k'
        · subst hk2
          simp [setField, lookupField, hk]
        · simp [setField, lookupField, hk, hk2,
            lookupField_setField_ne rest k k' v h]

/-- A nested update along a path starting at `k` leaves other top-level keys
unread. -/
theorem lookupField_updateIn_ne (sub : Rec) (k : String) (keys' : List String)
    (v : Val) (w : String) (h : k ≠ w) :
    lookupField (updateIn sub (k :: keys') v) w = lookupField sub w := by
  cases keys' with
  | nil => exact lookupField_setField_ne sub k w v h
  | cons k3 r =>
      simp only [updateIn]
      exact lookupField_setField_ne sub k w _ h

/-- A staging rewrite cannot move the work directory: the staged path is a
truthy string that does not start with the work dir, so its field cannot be
`dirs`, `dirs.work`, or below it. -/
theorem getWorkDir_updateIn (data : Rec) (key : List String) (v : Val)
    (orig wd : String) (hg : getIn key data = some (.vstr orig))
    (hw : getWorkDir data = some wd) (hsw : pyStartswith orig wd = false) :
    getWorkDir (updateIn data key v) = getWorkDir data := by
  match key with
  | [] =>
      rw [getIn] at hg
      exact absurd hg (by simp)
  | [k1] =>
      by_cases hk : k1 = "dirs"
      · subst hk
        rw [getIn] at hg
        unfold getWorkDir at hw
        simp only [getIn, hg] at hw
        exact absurd hw (by simp)
      · have hfr : lookupField (setField data k1 v) "dirs"
            = lookupField data "dirs" := lookupField_setField_ne data k1 "dirs" v hk
        show getWorkDir (setField data k1 v) = getWorkDir data
        unfold getWorkDir
        simp only [getIn, hfr]
  | k1 :: k2 :: rest =>
      by_cases hk : k1 = "dirs"
      · subst hk
        simp only [getIn] at hg
        cases hd : lookupField data "dirs" with
        | none =>
            simp only [hd] at hg
            exact absurd hg (by simp)
        | some dv =>
            cases dv with
            | vstr s =>
                simp only [hd] at hg
                exact absurd hg (by simp)
            | vnull =>
                simp only [hd] at hg
                exact absurd hg (by simp)
            | vdict sub =>
                simp only [hd] at hg
                have hupd : updateIn data ("dirs" :: k2 :: rest) v
                    = setField data "dirs" (.vdict (updateIn sub (k2 :: rest) v)) := by
                  simp only [updateIn, hd]
                rw [hupd]
                unfold getWorkDir
                have hlk : lookupField (setField data "dirs"
                    (.vdict (updateIn sub (k2 :: rest) v))) "dirs"
                    = some (.vdict (updateIn sub (k2 :: rest) v)) :=
                  lookupField_setField data "dirs" _
                simp only [getIn, hlk, hd]
                by_cases hk2 : k2 = "work"
                · subst hk2
                  cases rest with
                  | nil =>
                      rw [getIn] at hg
                      unfold getWorkDir at hw
                      simp only [getIn, hd, hg] at hw
                      have how : orig = wd := Option.some.inj hw
                      subst how
                      rw [pyStartswith_refl] at hsw
                      exact absurd hsw (by simp)
                  | cons k3 r =>
                      simp only [getIn] at hg
                      cases hwork : lookupField sub "work" with
                      | none =>
                          simp only [hwork] at hg
                          exact absurd hg (by simp)
                      | some wv =>
                          cases wv with
                          | vstr s =>
                              simp only [hwork] at hg
                              exact absurd hg (by simp)
                          | vnull =>
                              simp only [hwork] at hg
                              exact absurd hg (by simp)
                          | vdict sub2 =>
                              unfold getWorkDir at hw
                              simp only [getIn, hd, hwork] at hw
                              exact absurd hw (by simp)
                · rw [lookupField_updateIn_ne sub k2 rest v "work" hk2]
      · have hupd : ∃ x, updateIn data (k1 :: k2 :: rest) v = setField data k1 x := by
          simp only [updateIn]
          exact ⟨_, rfl⟩
        obtain ⟨x, hx⟩ := hupd
        rw [hx]
        have hfr : lookupField (setField data k1 x) "dirs"
            = lookupField data "dirs" := lookupField_setField_ne data k1 "dirs" x hk
        unfold getWorkDir
        simp only [getIn, hfr]

theorem vcName_ne_empty (o : Option String) : vcName o ≠ "" := by
  cases o with
  | none => decide
  | some v =>
      by_cases h : v = "" <;> simp [vcName, h]

theorem vcName_not_abs (o : Option String)
    (ho : ∀ v, o = some v → pyStartswith v "/" = false) :
    pyStartswith (vcName o) "/" = false := by
  cases o with
  | none => decide
  | some v =>
      by_cases h : v = ""
      · simp only [vcName, h, if_pos]
        decide
      · simp only [vcName, h, if_neg, not_false_iff]
        exact ho v rfl

/-- A staging target is a nonempty path under the work directory (the caller
name is never absolute for a non-absolute `getVC` result). -/
theorem stageTarget_under_wd (vc wd orig : String) (hvc1 : vc ≠ "")
    (hvc2 : pyStartswith vc "/" = false) :
    stageTarget vc wd orig ≠ "" ∧ pyStartswith (stageTarget vc wd orig) wd = true := by
  constructor
  · exact pathJoin_ne_empty (Or.inl (pathJoin_ne_empty (Or.inr hvc1)))
  · exact pyStartswith_trans (pyStartswith_pathJoin _ _ (basename_not_abs orig))
      (pyStartswith_pathJoin _ _ hvc2)

/-- **C7.** For a truthy string reference at `key` with the work directory
present: a reference already starting with the work directory leaves the record
unchanged with no filesystem action; otherwise the field is rewritten to
`<work_dir>/<variant_caller or "precalled">/<basename>` after a directory
creation and a source-to-target link. -/
theorem stage_spec (getVC : Rec → Option String) (data : Rec) (key : List String)
    (p wd : String) (hp : getIn key data = some (.vstr p)) (hne : p ≠ "")
    (hwd : getWorkDir data = some wd) :
    (pyStartswith p wd = true →
        symlinkToWorkdir getVC data key = .ok (data, [])) ∧
    (pyStartswith p wd = false →
        symlinkToWorkdir getVC data key =
          .ok (updateIn data key (.vstr (stageTarget (vcName (getVC data)) wd p)),
               [.makedir (dirname (stageTarget (vcName (getVC data)) wd p)),
                .symlink p (stageTarget (vcName (getVC data)) wd p)]) ∧
        getIn key (updateIn data key (.vstr (stageTarget (vcName (getVC data)) wd p)))
          = some (.vstr (stageTarget (vcName (getVC data)) wd p))) := by
  have hkey : key ≠ [] := by
    intro hk
    rw [hk] at hp
    simp [getIn] at hp
  constructor
  · intro hsw
    simp [symlinkToWorkdir, hp, hne, hwd, hsw]
  · intro hsw
    refine ⟨?_, getIn_updateIn _ key data hkey⟩
    simp [symlinkToWorkdir, hp, hne, hwd, hsw]

/-- Witness for C7: staging a file from outside the work directory. -/
theorem stage_spec_witness :
    symlinkToWorkdir (fun _ => some "gatk") stageRecEx ["vrn_file"] =
      .ok (updateIn stageRecEx ["vrn_file"] (.vstr "/w/gatk/x.vcf"),
           [.makedir "/w/gatk", .symlink "/ro/x.vcf" "/w/gatk/x.vcf"]) ∧
    getIn ["vrn_file"] (updateIn stageRecEx ["vrn_file"] (.vstr "/w/gatk/x.vcf"))
      = some (.vstr "/w/gatk/x.vcf") :=
  (stage_spec (fun _ => some "gatk") stageRecEx ["vrn_file"] "/ro/x.vcf" "/w"
    rfl (by decide) rfl).2 (by decide)

/-- **C8.** Staging is idempotent: a successful first application (unchanged or
staged) makes the second application a no-op returning the same record with no
filesystem actions and no error, provided the caller name is not an absolute
path. -/
theorem stage_idempotent (getVC : Rec → Option String) (data : Rec)
    (key : List String) (data' : Rec) (acts : List FsAction)
    (h : symlinkToWorkdir getVC data key = .ok (data', acts))
    (hvc : ∀ v, getVC data = some v → pyStartswith v "/" = false) :
    symlinkToWorkdir getVC data' key = .ok (data', []) := by
  cases hg : getIn key data with
  | none =>
      have hres : symlinkToWorkdir getVC data key = .ok (data, []) := by
        simp [symlinkToWorkdir, hg]
      rw [h] at hres
      simp only [Except.ok.injEq, Prod.mk.injEq] at hres
      obtain ⟨rfl, -⟩ := hres
      simp [symlinkToWorkdir, hg]
  | some v =>
      cases v with
      | vnull =>
          have hres : symlinkToWorkdir getVC data key = .ok (data, []) := by
            simp [symlinkToWorkdir, hg]
          rw [h] at hres
          simp only [Except.ok.injEq, Prod.mk.injEq] at hres
          obtain ⟨rfl, -⟩ := hres
          simp [symlinkToWorkdir, hg]
      | vdict fs =>
          cases fs with
          | fnil =>
              have hres : symlinkToWorkdir getVC data key = .ok (data, []) := by
                simp [symlinkToWorkdir, hg]
              rw [h] at hres
              simp only [Except.ok.injEq, Prod.mk.injEq] at hres
              obtain ⟨rfl, -⟩ := hres
              simp [symlinkToWorkdir, hg]
          | fcons k1 v1 r1 =>
              have hres : symlinkToWorkdir getVC data key = .error .typeError := by
                simp [symlinkToWorkdir, hg]
              rw [h] at hres
              simp at hres
      | vstr orig =>
          by_cases ho : orig = ""
          · have hres : symlinkToWorkdir getVC data key = .ok (data, []) := by
              simp [symlinkToWorkdir, hg, ho]
            rw [h] at hres
            simp only [Except.ok.injEq, Prod.mk.injEq] at hres
            obtain ⟨rfl, -⟩ := hres
            simp [symlinkToWorkdir, hg, ho]
          · cases hw : getWorkDir data with
            | none =>
                have hres : symlinkToWorkdir getVC data key = .error .typeError := by
                  simp [symlinkToWorkdir, hg, ho, hw]
                rw [h] at hres
                simp at hres
            | some wd =>
                by_cases hsw : pyStartswith orig wd = true
                · have hres : symlinkToWorkdir getVC data key = .ok (data, []) := by
                    simp [symlinkToWorkdir, hg, ho, hw, hsw]
                  rw [h] at hres
                  simp only [Except.ok.injEq, Prod.mk.injEq] at hres
                  obtain ⟨rfl, -⟩ := hres
                  simp [symlinkToWorkdir, hg, ho, hw, hsw]
                · have hkey : key ≠ [] := by
                    intro hk
                    rw [hk] at hg
                    simp [getIn] at hg
                  have hres : symlinkToWorkdir getVC data key =
                      .ok (updateIn data key
                            (.vstr (stageTarget (vcName (getVC data)) wd orig)),
                           [.makedir (dirname (stageTarget (vcName (getVC data)) wd orig)),
                            .symlink orig (stageTarget (vcName (getVC data)) wd orig)]) := by
                    simp [symlinkToWorkdir, hg, ho, hw, hsw]
                  rw [h] at hres
                  simp only [Except.ok.injEq, Prod.mk.injEq] at hres
                  obtain ⟨rfl, -⟩ := hres
                  obtain ⟨hT1, hT2⟩ := stageTarget_under_wd (vcName (getVC data)) wd orig
                    (vcName_ne_empty _) (vcName_not_abs _ hvc)
                  have hgin := getIn_updateIn
                    (Val.vstr (stageTarget (vcName (getVC data)) wd orig)) key data hkey
                  have hwd2 : getWorkDir (updateIn data key
                      (.vstr (stageTarget (vcName (getVC data)) wd orig))) = some wd := by
                    rw [getWorkDir_updateIn data key _ orig wd hg hw
                      (by simpa using hsw), hw]
                  simp [symlinkToWorkdir, hgin, hT1, hwd2, hT2]

/-- Witness for C8: restaging the staged record is a no-op. -/
theorem stage_idempotent_witness :
    symlinkToWorkdir (fun _ => some "gatk")
        (updateIn stageRecEx ["vrn_file"] (.vstr "/w/gatk/x.vcf")) ["vrn_file"]
      = .ok (updateIn stageRecEx ["vrn_file"] (.vstr "/w/gatk/x.vcf"), []) :=
  stage_idempotent (fun _ => some "gatk") stageRecEx ["vrn_file"]
    (updateIn stageRecEx ["vrn_file"] (.vstr "/w/gatk/x.vcf"))
    [.makedir "/w/gatk", .symlink "/ro/x.vcf" "/w/gatk/x.vcf"]
    rfl (by intro v hv; cases hv; decide)

theorem svcAddOne_inv (data : VCItem) (st : VCState)
    (entry : String × OutKey × String) (h : VCInv st) :
    VCInv (svcAddOne data st entry) := by
  obtain ⟨vk, ok, nm⟩ := entry
  obtain ⟨h1, h2, h3⟩ := h
  unfold svcAddOne
  by_cases hc : (nm ++ "-" ++ data.variantcaller) ∈ st.added
  · simp only [if_pos hc]
    exact ⟨h1, h2, h3⟩
  · simp only [if_neg hc]
    have hk : (nm ++ "-" ++ data.variantcaller) ∉ st.writes.map Prod.fst := by
      intro hmem
      exact hc (h2 _ hmem)
    refine ⟨?_, ?_, ?_⟩
    · simp only [List.map_append, List.map_cons, List.map_nil]
      rw [List.nodup_append]
      refine ⟨h1, List.nodup_singleton _, ?_⟩
      intro x hx hx'
      simp only [List.mem_singleton] at hx'
      subst hx'
      exact hk hx
    · intro k hkmem
      simp only [List.map_append, List.map_cons, List.map_nil, List.mem_append,
        List.mem_singleton] at hkmem
      rcases hkmem with hm | hm
      · exact List.mem_append_left _ (h2 k hm)
      · subst hm
        exact List.mem_append_right _ (by simp)
    · cases ok <;> simp only [List.length_append, List.length_cons,
        List.length_nil] <;> omega

theorem svcFold_inv (data : VCItem) :
    ∀ (l : List (String × OutKey × String)) (st : VCState), VCInv st →
      VCInv (l.foldl (svcAddOne data) st)
  | [], _, h => h
  | e :: rest, st, h => svcFold_inv data rest _ (svcAddOne_inv data st e h)

theorem svcStep_inv (st : VCState) (data : VCItem) (h : VCInv st) :
    VCInv (svcStep st data) := by
  unfold svcStep
  cases hv : data.vrn_file with
  | none => exact h
  | some s =>
      by_cases hs : s = ""
      · simp only [if_pos hs]
        exact h
      · simp only [if_neg hs]
        exact svcFold_inv data _ st h

theorem svcSteps_inv :
    ∀ (items : List VCItem) (st : VCState), VCInv st →
      VCInv (items.foldl svcStep st)
  | [], _, h => h
  | i :: rest, st, h => svcSteps_inv rest _ (svcStep_inv st i h)

/-- **C3.** `summarize_vc` never emits two output files for the same
`name-caller` dedup key: the emitted keys are pairwise distinct and every
manifest entry (calls or gvcf) corresponds to exactly one emitted file. -/
theorem summarize_vc_no_duplicate_keys (grading : List VCItem → List VCItem)
    (fs : String → List String) (items : List VCItem) (out : VCOut)
    (h : summarizeVC grading fs items = .ok out) :
    (out.copyWrites.map Prod.fst).Nodup ∧
    out.calls.length + out.gvcf.length = out.copyWrites.length := by
  unfold summarizeVC at h
  cases hcv : combineValidations fs (grading items) with
  | error e =>
      rw [hcv] at h
      simp at h
  | ok v =>
      rw [hcv] at h
      obtain ⟨summary, vw⟩ := v
      simp only [Except.ok.injEq] at h
      subst h
      have hinv := svcSteps_inv (grading items) ⟨[], [], [], []⟩
        ⟨by simp, by simp, rfl⟩
      exact ⟨hinv.1, hinv.2.2⟩

/-- Witness for C3 on a concrete single-item run. -/
theorem summarize_vc_no_duplicate_keys_witness :
    ∃ out, summarizeVC id fsEmpty [itemW] = .ok out ∧
      ((out.copyWrites.map Prod.fst).Nodup ∧
       out.calls.length + out.gvcf.length = out.copyWrites.length) :=
  ⟨_, rfl, summarize_vc_no_duplicate_keys id fsEmpty [itemW] _ rfl⟩

/-- **C4.** `_combine_validations`: one distinct report path is returned
unchanged with no file written; with more than one, the sorted distinct paths
are merged into `<work_dir>/validation/grading-summary-combined.csv`, writing
the first report whole (header included) and the non-header lines of every
later report in order. -/
theorem merge_reports_spec (fs : String → List String) (i0 : VCItem)
    (rest : List VCItem) :
    (∀ p, distinctCsvs (i0 :: rest) = [p] →
        combineValidations fs (i0 :: rest) =
          .ok ({ grading_plots := sortStrs (distinctPngs (i0 :: rest)),
                 grading_summary := p }, [])) ∧
    (1 < (distinctCsvs (i0 :: rest)).length →
        ∀ c0 cs, sortStrs (distinctCsvs (i0 :: rest)) = c0 :: cs →
          combineValidations fs (i0 :: rest) =
            .ok ({ grading_plots := sortStrs (distinctPngs (i0 :: rest)),
                   grading_summary := combinedPath i0 },
                 [(combinedPath i0,
                   fs c0 ++ cs.flatMap (fun c => (fs c).drop 1))])) := by
  constructor
  · intro p hp
    unfold combineValidations
    rw [hp]
  · intro hlen c0 cs hsort
    have hex : ∃ a b l, distinctCsvs (i0 :: rest) = a :: b :: l := by
      rcases hll : distinctCsvs (i0 :: rest) with _ | ⟨a, _ | ⟨b, l⟩⟩
      · rw [hll] at hlen
        simp at hlen
      · rw [hll] at hlen
        simp at hlen
      · exact ⟨_, _, _, rfl⟩
    obtain ⟨a, b, l, hd⟩ := hex
    have hmain : combineValidations fs (i0 :: rest) =
        .ok ({ grading_plots := sortStrs (distinctPngs (i0 :: rest)),
               grading_summary := combinedPath i0 },
             [(combinedPath i0, mergeCsvLines fs (sortStrs (a :: b :: l)))]) := by
      unfold combineValidations
      rw [hd]
    rw [hmain, ← hd, hsort]
    have hm : mergeCsvLines fs (c0 :: cs) =
        fs c0 ++ cs.flatMap (fun c => (fs c).drop 1) := by
      show (fs c0).take 1 ++ (fs c0).drop 1 ++ cs.flatMap (fun c => (fs c).drop 1)
        = fs c0 ++ cs.flatMap (fun c => (fs c).drop 1)
      rw [List.take_append_drop]
    rw [hm]

/-- Witness for C4: reports `["h","a"]` and `["h","b"]` merge to
`["h","a","b"]`. -/
theorem merge_reports_spec_witness :
    combineValidations fsEx [itemVa, itemVb] =
      .ok ({ grading_plots := [],
             grading_summary := "/w/validation/grading-summary-combined.csv" },
           [("/w/validation/grading-summary-combined.csv",
             ["h\n", "a\n", "b\n"])]) :=
  (merge_reports_spec fsEx itemVa [itemVb]).2 (by decide) "/a.csv" ["/b.csv"]
    (by decide)

/-- **C10.** The dedup key is the concatenation `name ++ "-" ++ caller`: the
distinct logical keys `("a-b","c")` and `("a","b-c")` collide, so only the
first record produces an output file and the second is silently skipped. -/
theorem summarize_vc_key_collision :
    (("a-b", "c") ≠ (("a" : String), ("b-c" : String))) ∧
    (("a-b" ++ "-" ++ "c" : String) = "a" ++ "-" ++ "b-c") ∧
    ∃ out, summarizeVC id fsEmpty [itemC10a, itemC10b] = .ok out ∧
      out.copyWrites.map Prod.fst = ["a-b-c"] ∧
      out.calls = ["/w/variants/calls/a-b-c.vcf.gz"] ∧ out.gvcf = [] := by
  refine ⟨by decide, by decide, ?_⟩
  exact ⟨_, rfl, rfl, rfl, rfl⟩

/-- Inversion of a successful `postprocessVariants` run: the returned record is
the restore step applied to the transform output, whose call file is the
recorded `preRestore`, and prioritization/germline facts come from the
transform sequence. -/
theorem postprocess_inv (env : PPEnv) (items0 : Items) (r : PPResult)
    (h : postprocessVariants env items0 = .ok r) :
    ∃ items3 dataB dataC,
      ppStage2 env r.vrnKey dataB items3 = .ok (dataC, r.prio, r.germlineInvoked) ∧
      restoreStep env r.vrnKey r.origVrn dataC = .ok r.data ∧
      r.preRestore = lookupField dataC r.vrnKey := by
  unfold postprocessVariants at h
  split at h
  · exact absurd h (by simp)
  · next vrnKey items1 heq1 =>
      split at h
      · exact absurd h (by simp)
      · next data0 items2 heq2 =>
          split at h
          · exact absurd h (by simp)
          · next dataA acts1 heq3 =>
              split at h
              · exact absurd h (by simp)
              · next dataB acts2 heq4 =>
                  split at h
                  · exact absurd h (by simp)
                  · next dataC pr germ heq5 =>
                      split at h
                      · exact absurd h (by simp)
                      · next final heq6 =>
                          simp only [Except.ok.injEq] at h
                          subst h
                          exact ⟨env.unpackTarballsItems items2 data0, dataB, dataC,
                            heq5, heq6, rfl⟩

/-- A successful `ppPrioStep` reports the prioritization input/output pair and
sets the germline flag exactly when the output path differs. -/
theorem ppPrioStep_ok (env : PPEnv) (vrnKey : String) (origItems : List Rec)
    (data4 : Rec) (s4 : String) (d' : Rec) (pr : Option (String × String))
    (germ : Bool)
    (h : ppPrioStep env vrnKey origItems data4 s4 = .ok (d', pr, germ)) :
    ∃ prio, pr = some (s4, prio) ∧ germ = (prio != s4) := by
  unfold ppPrioStep at h
  simp only [] at h
  refine ⟨env.handleVcfCalls s4 data4 origItems, ?_⟩
  split at h
  · next bam heqb =>
      split at h
      · simp only [Except.ok.injEq, Prod.mk.injEq] at h
        exact ⟨h.2.1.symm, h.2.2.symm⟩
      · split at h
        · next s5 heql =>
            simp only [Except.ok.injEq, Prod.mk.injEq] at h
            exact ⟨h.2.1.symm, h.2.2.symm⟩
        · exact absurd h (by simp)
        · exact absurd h (by simp)
  · next heqb =>
      simp only [Except.ok.injEq, Prod.mk.injEq] at h
      exact ⟨h.2.1.symm, h.2.2.symm⟩

/-- Every successful `ppStage2` outcome either skipped the transform branch
(no prioritization, no germline) or ran prioritization, with the germline flag
equal to the path-change test. -/
theorem ppStage2_shape (env : PPEnv) (vrnKey : String) (data : Rec)
    (items : Items) (d' : Rec) (pr : Option (String × String)) (germ : Bool)
    (h : ppStage2 env vrnKey data items = .ok (d', pr, germ)) :
    (pr = none ∧ germ = false) ∨ ∃ a b, pr = some (a, b) ∧ germ = (b != a) := by
  unfold ppStage2 at h
  split at h
  · simp only [Except.ok.injEq, Prod.mk.injEq] at h
    exact Or.inl ⟨h.2.1.symm, h.2.2.symm⟩
  · simp only [Except.ok.injEq, Prod.mk.injEq] at h
    exact Or.inl ⟨h.2.1.symm, h.2.2.symm⟩
  · simp only [Except.ok.injEq, Prod.mk.injEq] at h
    exact Or.inl ⟨h.2.1.symm, h.2.2.symm⟩
  · exact absurd h (by simp)
  · next s0 heq0 =>
      split at h
      · simp only [Except.ok.injEq, Prod.mk.injEq] at h
        exact Or.inl ⟨h.2.1.symm, h.2.2.symm⟩
      · simp only [] at h
        split at h
        · next s2 heq2 =>
            split at h
            · next s3 heq3 =>
                split at h
                · next s4 heq4 =>
                    obtain ⟨prio, hpr, hg⟩ := ppPrioStep_ok _ _ _ _ _ _ _ _ h
                    exact Or.inr ⟨_, prio, hpr, hg⟩
                · exact absurd h (by simp)
                · exact absurd h (by simp)
            · exact absurd h (by simp)
            · exact absurd h (by simp)
        · exact absurd h (by simp)
        · exact absurd h (by simp)

/-- **C5.** If the input record carried a truthy call-file path and the path
held after all transform stages refers (per `os.path.samefile`) to the same
underlying file, the returned record's call-file field equals the original
input path, not the staged or intermediate path. -/
theorem postprocess_restore_original (env : PPEnv) (items0 : Items)
    (r : PPResult) (h : postprocessVariants env items0 = .ok r) (p q : String)
    (ho : r.origVrn = some (.vstr p)) (hp : p ≠ "")
    (hq : r.preRestore = some (.vstr q)) (hs : env.samefile q p = true) :
    lookupField r.data r.vrnKey = some (.vstr p) := by
  obtain ⟨items3, dataB, dataC, -, hrs, hpre⟩ := postprocess_inv env items0 r h
  have hlk : lookupField dataC r.vrnKey = some (.vstr q) := hpre.symm.trans hq
  have htr : pyTruthy (some (.vstr p)) = true := by simp [pyTruthy, hp]
  rw [restoreStep, ho, htr, hlk] at hrs
  simp only [if_true, hs, Except.ok.injEq] at hrs
  rw [← hrs]
  exact lookupField_setField dataC r.vrnKey (.vstr p)

/-- **C6.** Germline extraction is invoked iff prioritization returned a
call-file identity different from the one it was given; when prioritization
did not run or returned the same path, germline extraction is skipped. -/
theorem germline_iff_prioritization_changed (env : PPEnv) (items0 : Items)
    (r : PPResult) (h : postprocessVariants env items0 = .ok r) :
    (r.germlineInvoked = true ↔ ∃ a b, r.prio = some (a, b) ∧ b ≠ a) := by
  obtain ⟨items3, dataB, dataC, hst, -, -⟩ := postprocess_inv env items0 r h
  rcases ppStage2_shape _ _ _ _ _ _ _ hst with ⟨hp, hg⟩ | ⟨a, b, hp, hg⟩
  · rw [hp, hg]
    simp
  · rw [hp, hg]
    constructor
    · intro hbne
      exact ⟨a, b, rfl, by simpa using hbne⟩
    · rintro ⟨a', b', heq, hne⟩
      have hab := Option.some.inj heq
      have ha : a = a' := congrArg Prod.fst hab
      have hb : b = b' := congrArg Prod.snd hab
      subst ha
      subst hb
      simpa using hne

/-- Witness for C5 on a concrete run whose transforms keep the call file. -/
theorem postprocess_restore_original_witness :
    ∃ r, postprocessVariants envEx (.single ppRecEx) = .ok r ∧
      lookupField r.data r.vrnKey = some (.vstr "/w/x.vcf") :=
  ⟨_, rfl, postprocess_restore_original envEx (.single ppRecEx) _ rfl
    "/w/x.vcf" "/w/x.vcf" rfl (by decide) rfl rfl⟩

/-- Witness for C6 on a concrete run where prioritization changes the file. -/
theorem germline_iff_witness :
    ∃ r, postprocessVariants envEx2 (.single ppRecEx) = .ok r ∧
      r.germlineInvoked = true :=
  ⟨_, rfl, (germline_iff_prioritization_changed envEx2 (.single ppRecEx) _
    rfl).mpr ⟨"/w/x.vcf", "/w/x.vcf.prio", rfl, by decide⟩⟩

/-- Witness for the amended C9 at a concrete group with a field-less member. -/
theorem select_representative_full_group_witness :
    ∃ rep, getBatchRepresentative
        (.group [Fields.fcons "vrn_file" (.vstr "x.vcf") .fnil, Fields.fnil])
        "vrn_file"
      = .ok (rep, .group [Fields.fcons "vrn_file" (.vstr "x.vcf") .fnil, Fields.fnil]) ∧
      rep ∈ [Fields.fcons "vrn_file" (.vstr "x.vcf") .fnil, Fields.fnil] ∧
      lookupField rep "vrn_file" = some (.vstr "x.vcf") :=
  select_representative_full_group "vrn_file" (.vstr "x.vcf")
    [Fields.fcons "vrn_file" (.vstr "x.vcf") .fnil, Fields.fnil]
    (by decide) (by decide)

end Variation
